import Mathlib

/-!
Verification of the pitch-resolution engine of the `rvc_inferencing`
repository (files `auto_pitch_entry_safe.py`, `auto_pitch_entry.py`,
`auto_pitch_entry_working_oldpath.py`).

Embedding conventions:
* Python floats are idealised as real numbers; the IEEE special values
  are modelled explicitly by the type `PyFloat` (a real number, `inf`,
  `-inf`, or `nan`), so that the guard clauses of the source that react
  to non-finite values can be stated faithfully.
* Code paths that can raise a Python exception are modelled in the
  `Except PyErr` monad; total Python code is modelled by total functions.
* The purely rational parts of the source (the WAV decoder and the
  autocorrelation estimator, which use only field operations and
  comparisons) are modelled over `ℚ`, so that they are executable and
  decidable on concrete inputs.
-/

namespace RvcPitch

open Classical

/-- Exceptions that the modelled Python code can raise. -/
inductive PyErr where
  | valueError
  | overflowError
  | zeroDivisionError
  | structError
deriving DecidableEq

/-- Decidable equality for `Except` results, needed to evaluate the
modelled decoder outcomes on concrete inputs. -/
instance {e a : Type} [DecidableEq e] [DecidableEq a] :
    DecidableEq (Except e a) := fun x y =>
  match x, y with
  | .ok v, .ok w =>
    if h : v = w then .isTrue (h ▸ rfl)
    else .isFalse fun hc => h (Except.ok.inj hc)
  | .error v, .error w =>
    if h : v = w then .isTrue (h ▸ rfl)
    else .isFalse fun hc => h (Except.error.inj hc)
  | .ok _, .error _ => .isFalse fun hc => Except.noConfusion hc
  | .error _, .ok _ => .isFalse fun hc => Except.noConfusion hc

/-- Rounding performed by the Python 3 builtin `round` on a finite float:
round to the nearest integer, ties to the even integer. -/
noncomputable def pyRound (x : ℝ) : ℤ :=
  if Int.fract x < 1 / 2 then ⌊x⌋
  else if 1 / 2 < Int.fract x then ⌊x⌋ + 1
  else if Even ⌊x⌋ then ⌊x⌋ else ⌊x⌋ + 1

/-- Rounding to the nearest integer with ties away from zero.  This is the
rounding rule the specification ascribes to the semitone shift calculator;
it is compared against `pyRound`, the rule the source actually uses. -/
noncomputable def roundHalfAwayFromZero (x : ℝ) : ℤ :=
  if 0 ≤ x then ⌊x + 1 / 2⌋ else -⌊-x + 1 / 2⌋

theorem floor_le_pyRound (x : ℝ) : ⌊x⌋ ≤ pyRound x := by
  unfold pyRound
  split_ifs <;> omega

theorem pyRound_le_floor_add_one (x : ℝ) : pyRound x ≤ ⌊x⌋ + 1 := by
  unfold pyRound
  split_ifs <;> omega

theorem pyRound_mono {x y : ℝ} (h : x ≤ y) : pyRound x ≤ pyRound y := by
  rcases eq_or_lt_of_le (Int.floor_le_floor h) with heq | hlt
  · have hfr : Int.fract x ≤ Int.fract y := by
      have hx : Int.fract x = x - (⌊x⌋ : ℝ) := Int.self_sub_floor x ▸ rfl
      have hy : Int.fract y = y - (⌊y⌋ : ℝ) := Int.self_sub_floor y ▸ rfl
      rw [hx, hy, ← heq]
      linarith
    unfold pyRound
    rw [← heq]
    split_ifs <;> first | omega | linarith
  · calc pyRound x ≤ ⌊x⌋ + 1 := pyRound_le_floor_add_one x
      _ ≤ ⌊y⌋ := by omega
      _ ≤ pyRound y := floor_le_pyRound y

theorem pyRound_intCast (n : ℤ) : pyRound (n : ℝ) = n := by
  unfold pyRound
  rw [Int.fract_intCast, Int.floor_intCast]
  norm_num

/-- Python float values: a finite value (idealised as a real number), the
two infinities, or `nan`. -/
inductive PyFloat where
  | fin (x : ℝ)
  | inf
  | ninf
  | nan

/-- Python truthiness of a float: only `0.0` is falsy (`nan` and the
infinities are truthy). -/
def PyFloat.isTruthy : PyFloat → Prop
  | .fin x => x ≠ 0
  | _ => True

/-- The Python comparison `v <= 0` on a float (false for `nan`). -/
def PyFloat.le0 : PyFloat → Prop
  | .fin x => x ≤ 0
  | .inf => False
  | .ninf => True
  | .nan => False

/-- The Python predicate `math.isfinite`. -/
def PyFloat.isFinite : PyFloat → Bool
  | .fin _ => true
  | _ => false

/-- Python float division `a / b`, including the special values and the
`ZeroDivisionError` raised on a zero divisor. -/
noncomputable def PyFloat.pydiv : PyFloat → PyFloat → Except PyErr PyFloat
  | .fin x, .fin y =>
      if y = 0 then .error .zeroDivisionError else .ok (.fin (x / y))
  | .nan, .fin y =>
      if y = 0 then .error .zeroDivisionError else .ok .nan
  | .inf, .fin y =>
      if y = 0 then .error .zeroDivisionError
      else if 0 < y then .ok .inf else .ok .ninf
  | .ninf, .fin y =>
      if y = 0 then .error .zeroDivisionError
      else if 0 < y then .ok .ninf else .ok .inf
  | _, .nan => .ok .nan
  | .nan, _ => .ok .nan
  | .fin _, .inf => .ok (.fin 0)
  | .fin _, .ninf => .ok (.fin 0)
  | .inf, .inf => .ok .nan
  | .inf, .ninf => .ok .nan
  | .ninf, .inf => .ok .nan
  | .ninf, .ninf => .ok .nan

/-- The Python function `math.log2`: raises `ValueError` on non-positive
arguments (including `-inf`), maps `inf` to `inf` and `nan` to `nan`. -/
noncomputable def PyFloat.log2 : PyFloat → Except PyErr PyFloat
  | .fin x => if x ≤ 0 then .error .valueError else .ok (.fin (Real.logb 2 x))
  | .inf => .ok .inf
  | .ninf => .error .valueError
  | .nan => .ok .nan

/-- Multiplication of a Python float by the positive constant `12.0`. -/
noncomputable def PyFloat.mul12 : PyFloat → PyFloat
  | .fin x => .fin (12 * x)
  | .inf => .inf
  | .ninf => .ninf
  | .nan => .nan

/-- The Python builtin `round` on a float: `ValueError` on `nan`,
`OverflowError` on the infinities. -/
noncomputable def PyFloat.roundToInt : PyFloat → Except PyErr ℤ
  | .fin x => .ok (pyRound x)
  | .nan => .error .valueError
  | .inf => .error .overflowError
  | .ninf => .error .overflowError

/-- Embedding of `semitone_shift` from `auto_pitch_entry_safe.py` (lines
139-142, identical in `auto_pitch_entry_working_oldpath.py`):
`if not src_hz or not tgt_hz or src_hz <= 0 or tgt_hz <= 0: return 0`
then `return int(round(12.0 * math.log2(tgt_hz / src_hz)))`. -/
noncomputable def semitone_shift (src tgt : PyFloat) : Except PyErr ℤ :=
  if ¬ src.isTruthy ∨ ¬ tgt.isTruthy ∨ src.le0 ∨ tgt.le0 then .ok 0
  else
    match PyFloat.pydiv tgt src with
    | .error e => .error e
    | .ok r =>
      match PyFloat.log2 r with
      | .error e => .error e
      | .ok l => PyFloat.roundToInt (PyFloat.mul12 l)

/-- Embedding of `_hz_to_semitones` from `auto_pitch_entry.py` (lines
246-255): `if src_hz <= 0 or dst_hz <= 0: return 0`, then
`st = 12.0 * math.log2(dst_hz / src_hz)`, `if not math.isfinite(st):
return 0`, `return int(round(st))`. -/
noncomputable def hz_to_semitones (src dst : PyFloat) : Except PyErr ℤ :=
  if src.le0 ∨ dst.le0 then .ok 0
  else
    match PyFloat.pydiv dst src with
    | .error e => .error e
    | .ok r =>
      match PyFloat.log2 r with
      | .error e => .error e
      | .ok l =>
        let st := PyFloat.mul12 l
        if st.isFinite then PyFloat.roundToInt st else .ok 0

theorem semitone_shift_fin_pos {s t : ℝ} (hs : 0 < s) (ht : 0 < t) :
    semitone_shift (.fin s) (.fin t) = .ok (pyRound (12 * Real.logb 2 (t / s))) := by
  have hts : 0 < t / s := div_pos ht hs
  have hguard : ¬ (¬ (PyFloat.fin s).isTruthy ∨ ¬ (PyFloat.fin t).isTruthy ∨
      (PyFloat.fin s).le0 ∨ (PyFloat.fin t).le0) := by
    simp only [PyFloat.isTruthy, PyFloat.le0, not_or, not_not, not_le]
    exact ⟨hs.ne', ht.ne', hs, ht⟩
  have h1 : PyFloat.pydiv (.fin t) (.fin s) = .ok (.fin (t / s)) := by
    simp [PyFloat.pydiv, hs.ne']
  have h2 : PyFloat.log2 (.fin (t / s)) = .ok (.fin (Real.logb 2 (t / s))) := by
    simp [PyFloat.log2, not_le.mpr hts]
  rw [semitone_shift, if_neg hguard]
  simp only [h1, h2, PyFloat.mul12, PyFloat.roundToInt]

theorem hz_to_semitones_fin_pos {s t : ℝ} (hs : 0 < s) (ht : 0 < t) :
    hz_to_semitones (.fin s) (.fin t) = .ok (pyRound (12 * Real.logb 2 (t / s))) := by
  have hts : 0 < t / s := div_pos ht hs
  have hguard : ¬ ((PyFloat.fin s).le0 ∨ (PyFloat.fin t).le0) := by
    simp only [PyFloat.le0, not_or, not_le]
    exact ⟨hs, ht⟩
  have h1 : PyFloat.pydiv (.fin t) (.fin s) = .ok (.fin (t / s)) := by
    simp [PyFloat.pydiv, hs.ne']
  have h2 : PyFloat.log2 (.fin (t / s)) = .ok (.fin (Real.logb 2 (t / s))) := by
    simp [PyFloat.log2, not_le.mpr hts]
  rw [hz_to_semitones, if_neg hguard]
  simp only [h1, h2, PyFloat.mul12, PyFloat.isFinite, if_true, PyFloat.roundToInt]

/-- Embedding of `_read_target_f0_hz_from_meta` from `auto_pitch_entry.py`
(lines 170-192).  The input models the metadata descriptor: `none` means
the metadata file is missing, `some none` means the file exists but has no
`target_f0_hz` field, `some (some v)` means the field holds float `v`. -/
noncomputable def read_target_f0_hz_from_meta :
    Option (Option PyFloat) → Option PyFloat
  | none => none
  | some none => none
  | some (some (.fin x)) =>
      if x ≤ 0 then none
      else some (.fin (x * Real.rpow 2 (6 / 12)))
  | some (some _) => none

/-- Embedding of `load_target_f0_hz` from `auto_pitch_entry_safe.py`
(lines 145-158, identical in `auto_pitch_entry_working_oldpath.py`): the
field value is returned as a float with no finiteness or sign check and
no singing offset. -/
def load_target_f0_hz : Option (Option PyFloat) → Option PyFloat
  | none => none
  | some none => none
  | some (some v) => some v

/-- Python `int()` truncation of a (finite) float value, toward zero. -/
def pytrunc (q : ℚ) : ℤ :=
  if q < 0 then -⌊-q⌋ else ⌊q⌋

/-- The bounded central analysis window of `autocorr_pitch_hz`:
`max_len = min(len(samples), int(sr * 8))`,
`start = max(0, (len(samples) - max_len) // 2)`,
`x = samples[start:start + max_len]`. -/
def trimmedWindow (samples : List ℚ) (sr : ℤ) : List ℚ :=
  let maxLen := min samples.length (8 * sr).toNat
  let start := (samples.length - maxLen) / 2
  (samples.drop start).take maxLen

/-- Frame length `int(sr * 0.04)` of `autocorr_pitch_hz` (40 ms). -/
def frameLen (sr : ℤ) : ℤ := pytrunc ((sr : ℚ) * (4 / 100))

/-- Hop length `int(sr * 0.01)` of `autocorr_pitch_hz` (10 ms). -/
def hopLen (sr : ℤ) : ℤ := pytrunc ((sr : ℚ) * (1 / 100))

/-- The brute-force autocorrelation sum of one frame at one lag:
`s = sum(frame[j] * frame[j + lag] for j in range(frame_len - lag))`. -/
def corrSum (frame : List ℚ) (lag : ℤ) : ℚ :=
  ((frame.zip (frame.drop lag.toNat)).map (fun p => p.1 * p.2)).sum

/-- The best-lag search of `autocorr_pitch_hz`: fold over
`range(min_lag, max_lag)` keeping the lag of the strictly largest
autocorrelation value, starting from `best_lag = None`,
`best_val = -1e18`. -/
def bestLag (frame : List ℚ) (minLag maxLag : ℤ) : Option ℤ × ℚ :=
  ((List.range (maxLag - minLag).toNat).map (fun k => minLag + (k : ℤ))).foldl
    (fun acc lag =>
      let s := corrSum frame lag
      if acc.2 < s then (some lag, s) else acc)
    (none, -(10 ^ 18 : ℚ))

/-- Per-frame candidate extraction of `autocorr_pitch_hz`: the energy gate
(`energy < 1e-5`), the best-lag search, the Python truthiness test
`if best_lag and best_val > 0`, the lag-to-Hz conversion `hz = sr / lag`
and the range check `fmin <= hz <= fmax`. -/
def frameCandidate (x : List ℚ) (sr : ℤ) (fmin fmax : ℚ)
    (fLen minLag maxLag : ℤ) (i : ℤ) : Option ℚ :=
  let frame := (x.drop i.toNat).take fLen.toNat
  let energy := (frame.map (fun v => v * v)).sum / (frame.length : ℚ)
  if energy < 1 / 100000 then none
  else
    match bestLag frame minLag maxLag with
    | (some l, v) =>
      if l ≠ 0 ∧ 0 < v then
        let hz := (sr : ℚ) / (l : ℚ)
        if fmin ≤ hz ∧ hz ≤ fmax then some hz else none
      else none
    | (none, _) => none

/-- The candidate frequencies collected by the frame loop of
`autocorr_pitch_hz` (`auto_pitch_entry_safe.py` lines 82-130, identical in
`auto_pitch_entry_working_oldpath.py` lines 152-200), including the early
`return None` guards of the source (under which no candidate is ever
collected). -/
def collectPitches (samples : List ℚ) (sr : ℤ) (fmin fmax : ℚ) : List ℚ :=
  if samples = [] ∨ sr ≤ 0 then []
  else
    let x0 := trimmedWindow samples sr
    let mean := x0.sum / (x0.length : ℚ)
    let x := x0.map (fun v => v - mean)
    let fLen := frameLen sr
    let hop := hopLen sr
    if fLen ≤ 0 ∨ hop ≤ 0 ∨ (x.length : ℤ) < fLen then []
    else
      let minLag := pytrunc ((sr : ℚ) / fmax)
      let maxLag := pytrunc ((sr : ℚ) / fmin)
      if maxLag ≤ minLag + 1 then []
      else
        let n := (x.length : ℤ) - fLen
        let starts := (List.range ((n + hop - 1) / hop).toNat).map
          (fun k => (k : ℤ) * hop)
        starts.filterMap (frameCandidate x sr fmin fmax fLen minLag maxLag)

/-- Embedding of `autocorr_pitch_hz`: collect the per-frame candidates;
`if not pitches: return None`, else `pitches.sort()` and
`return pitches[len(pitches) // 2]`. -/
def autocorr_pitch_hz (samples : List ℚ) (sr : ℤ) (fmin fmax : ℚ) : Option ℚ :=
  let pitches := collectPitches samples sr fmin fmax
  if pitches = [] then none
  else some ((List.insertionSort (· ≤ ·) pitches).getD (pitches.length / 2) 0)

/-- Modelled from the spec: the statistical median of a list of values —
the middle element of the sorted list for an odd count, the mean of the
two middle elements for an even count.  Used to compare the source's
selection rule with the specification's word "median". -/
def medianSpec (l : List ℚ) : Option ℚ :=
  if l = [] then none
  else
    let s := List.insertionSort (· ≤ ·) l
    if l.length % 2 = 1 then some (s.getD (l.length / 2) 0)
    else some ((s.getD (l.length / 2 - 1) 0 + s.getD (l.length / 2) 0) / 2)

/-- Strided selection `data[0::step]` performed by the list comprehension
`[data[i] for i in range(0, len(data), n_channels)]` of `read_wav_mono`
(for a step of at least 1). -/
def stride {α : Type} (step : ℕ) : List α → List α
  | [] => []
  | a :: rest => a :: stride step (rest.drop (step - 1))
termination_by l => l.length
decreasing_by
  simp only [List.length_drop, List.length_cons]
  omega

/-- Little-endian signed 16-bit decoding of a byte pair, as performed by
`struct.unpack` with format character `h`. -/
def sint16 (b0 b1 : ℕ) : ℤ :=
  let v := b0 + 256 * b1
  if v < 32768 then (v : ℤ) else (v : ℤ) - 65536

/-- The call `struct.unpack("<" + "h" * (len(raw) // 2), raw)` of the
16-bit branch of `read_wav_mono`: decode consecutive byte pairs; a
trailing odd byte makes `struct.unpack` raise `struct.error`. -/
def unpack16 : List ℕ → Except PyErr (List ℤ)
  | [] => .ok []
  | [_] => .error .structError
  | b0 :: b1 :: rest =>
    match unpack16 rest with
    | .error e => .error e
    | .ok zs => .ok (sint16 b0 b1 :: zs)

/-- Embedding of the 16-bit branch of `read_wav_mono`
(`auto_pitch_entry_safe.py` lines 32-49, identical in
`auto_pitch_entry_working_oldpath.py` lines 68-85): raise `ValueError`
when the channel count is below 1, unpack the bytes as little-endian
int16, keep channel 0 of each interleaved frame and normalise by
dividing by 32768.0; the declared sample rate is passed through. -/
def read_wav_mono16 (nch : ℕ) (fr : ℤ) (raw : List ℕ) :
    Except PyErr (List ℚ × ℤ) :=
  if nch < 1 then .error .valueError
  else
    match unpack16 raw with
    | .error e => .error e
    | .ok data =>
      .ok ((stride nch data).map (fun z : ℤ => (z : ℚ) / 32768), fr)

/-- Little-endian 16-bit encoding of an in-range signed sample value, used
to build well-formed 16-bit PCM sample data. -/
def enc16 (z : ℤ) : List ℕ :=
  [(z % 65536 % 256).toNat, (z % 65536 / 256).toNat]

/-- Sample bytes of a well-formed interleaved 16-bit PCM stream: each
frame is the concatenation of the little-endian encodings of its
per-channel sample values. -/
def encFrames16 (frames : List (List ℤ)) : List ℕ :=
  (frames.map (fun f => (f.map enc16).flatten)).flatten

/-- Values decoded from 32-bit IEEE-754 floats: a finite rational value,
an infinity, or `nan`. -/
inductive F32 where
  | num (q : ℚ)
  | inf
  | ninf
  | nan
deriving DecidableEq

/-- Decoding of a little-endian IEEE-754 single-precision value from four
bytes, as performed by `struct.unpack` with format character `f`.  Every
4-byte pattern decodes to a value; the call never raises. -/
def decodeF32 (b0 b1 b2 b3 : ℕ) : F32 :=
  let bits : ℕ := b0 + 256 * b1 + 65536 * b2 + 16777216 * b3
  let sign : ℕ := bits / 2 ^ 31
  let e : ℕ := bits / 2 ^ 23 % 256
  let m : ℕ := bits % 2 ^ 23
  if e = 255 then
    if m = 0 then (if sign = 1 then .ninf else .inf) else .nan
  else
    let mag : ℚ :=
      if e = 0 then (m : ℚ) * (2 : ℚ) ^ (-(149 : ℤ))
      else ((2 ^ 23 + m : ℕ) : ℚ) * (2 : ℚ) ^ ((e : ℤ) - 150)
    .num (if sign = 1 then -mag else mag)

/-- The call `struct.unpack("<" + "f" * (len(raw) // 4), raw)`: decode
consecutive 4-byte groups as IEEE floats; it raises `struct.error` only
when the byte count is not a multiple of 4. -/
def unpack32f : List ℕ → Except PyErr (List F32)
  | [] => .ok []
  | b0 :: b1 :: b2 :: b3 :: rest =>
    match unpack32f rest with
    | .error e => .error e
    | .ok vs => .ok (decodeF32 b0 b1 b2 b3 :: vs)
  | _ => .error .structError

/-- Little-endian signed 32-bit decoding of four bytes, as performed by
`struct.unpack` with format character `i`. -/
def sint32 (b0 b1 b2 b3 : ℕ) : ℤ :=
  let v := b0 + 256 * b1 + 65536 * b2 + 16777216 * b3
  if v < 2 ^ 31 then (v : ℤ) else (v : ℤ) - 2 ^ 32

/-- The call `struct.unpack("<" + "i" * (len(raw) // 4), raw)` of the
int32 fallback of `read_wav_mono`. -/
def unpack32i : List ℕ → Except PyErr (List ℤ)
  | [] => .ok []
  | b0 :: b1 :: b2 :: b3 :: rest =>
    match unpack32i rest with
    | .error e => .error e
    | .ok zs => .ok (sint32 b0 b1 b2 b3 :: zs)
  | _ => .error .structError

/-- Embedding of the 4-byte branch of `read_wav_mono`
(`auto_pitch_entry_safe.py` lines 51-61, identical in
`auto_pitch_entry_working_oldpath.py` lines 87-97): `try` float32
unpacking first and fall back to int32 (normalised by 2147483648.0) only
when the float unpacking raises. -/
def read_wav_mono32 (nch : ℕ) (fr : ℤ) (raw : List ℕ) :
    Except PyErr (List F32 × ℤ) :=
  if nch < 1 then .error .valueError
  else
    match unpack32f raw with
    | .ok data => .ok (stride nch data, fr)
    | .error _ =>
      match unpack32i raw with
      | .error e => .error e
      | .ok data =>
        .ok ((stride nch data).map (fun z : ℤ => .num ((z : ℚ) / 2147483648)),
          fr)

/-- Provenance tags of the final pitch decision (spec data model). -/
inductive Provenance where
  | explicitOverride
  | computed
  | fallbackNoMetadata
  | fallbackEstimationFailed
deriving DecidableEq

/-- Observable outcome of one orchestrator invocation: the pitch value
passed to the synthesiser, the provenance of the decision, whether the
decoder and the estimator were invoked, and whether a fallback warning
was printed. -/
structure Decision where
  pitch : ℤ
  prov : Provenance
  decoderInvoked : Bool
  estimatorInvoked : Bool
  warned : Bool
deriving DecidableEq

/-- Embedding of the decision logic of `main` from
`auto_pitch_entry_safe.py` (lines 161-203).  The caller-supplied
`--pitch`, the result of `load_target_f0_hz`, and the outcome of
`read_wav_mono` (a sample buffer with its rate, or a raised decode error)
are the inputs; the estimation chain `autocorr_pitch_hz` /
`semitone_shift` is run inside the `try` block of the source, whose
`except` clause converts every raised error into the pitch-0 fallback. -/
noncomputable def mainSafe (explicitPitch : Option ℤ) (target : Option PyFloat)
    (decodeRes : Except PyErr (List ℚ × ℤ)) : Decision :=
  match explicitPitch with
  | some p => ⟨p, .explicitOverride, false, false, false⟩
  | none =>
    match target with
    | none => ⟨0, .fallbackNoMetadata, false, false, true⟩
    | some t =>
      if ¬ t.isTruthy then ⟨0, .fallbackNoMetadata, false, false, true⟩
      else
        match decodeRes with
        | .error _ => ⟨0, .fallbackEstimationFailed, true, false, true⟩
        | .ok (samples, sr) =>
          match autocorr_pitch_hz samples sr 50 500 with
          | none => ⟨0, .fallbackEstimationFailed, true, true, true⟩
          | some src =>
            if src = 0 then ⟨0, .fallbackEstimationFailed, true, true, true⟩
            else
              match semitone_shift (.fin (src : ℝ)) t with
              | .ok n => ⟨n, .computed, true, true, false⟩
              | .error _ => ⟨0, .fallbackEstimationFailed, true, true, true⟩

theorem pyRound_half : pyRound (1 / 2 : ℝ) = 0 := by
  have hfl : ⌊(1 / 2 : ℝ)⌋ = 0 := by
    rw [Int.floor_eq_zero_iff]
    constructor <;> norm_num
  have hfr : Int.fract (1 / 2 : ℝ) = 1 / 2 := by
    rw [Int.fract, hfl]
    norm_num
  unfold pyRound
  rw [hfl, hfr]
  norm_num

theorem roundHalfAwayFromZero_half : roundHalfAwayFromZero (1 / 2 : ℝ) = 1 := by
  unfold roundHalfAwayFromZero
  rw [if_pos (by norm_num : (0:ℝ) ≤ 1 / 2)]
  rw [show (1 / 2 + 1 / 2 : ℝ) = ((1 : ℤ) : ℝ) by norm_num, Int.floor_intCast]

theorem logb_ratio_one : Real.logb 2 ((2 : ℝ) / 1) = 1 := by
  rw [div_one]
  exact Real.logb_self_eq_one (by norm_num)

theorem pyRound_twelve : pyRound (12 * Real.logb 2 ((2 : ℝ) / 1)) = 12 := by
  rw [logb_ratio_one, show (12 * 1 : ℝ) = ((12 : ℤ) : ℝ) by norm_num]
  exact pyRound_intCast 12

theorem pyRound_ratio_same : pyRound (12 * Real.logb 2 ((1 : ℝ) / 1)) = 0 := by
  rw [div_one, Real.logb_one, show (12 * 0 : ℝ) = ((0 : ℤ) : ℝ) by norm_num]
  exact pyRound_intCast 0

/-- Claim C1 is refuted at source 1 Hz and target `2^(1/24)` Hz: the
argument of the rounding is the exact tie `1/2`, which the source's
`round` (ties to even) sends to `0`, while the rounding the claim
prescribes (ties away from zero) sends it to `1`. -/
theorem claim1_counterexample :
    semitone_shift (.fin 1) (.fin ((2 : ℝ) ^ ((1 : ℝ) / 24))) = .ok 0 ∧
    roundHalfAwayFromZero
      (12 * Real.logb 2 (((2 : ℝ) ^ ((1 : ℝ) / 24)) / 1)) = 1 ∧
    (0 : ℤ) ≠ 1 := by
  have hc : (0 : ℝ) < (2 : ℝ) ^ ((1 : ℝ) / 24) :=
    Real.rpow_pos_of_pos (by norm_num) _
  have hlog : Real.logb 2 (((2 : ℝ) ^ ((1 : ℝ) / 24)) / 1) = 1 / 24 := by
    rw [div_one]
    exact Real.logb_rpow (by norm_num) (by norm_num)
  refine ⟨?_, ?_, by decide⟩
  · rw [semitone_shift_fin_pos (by norm_num : (0:ℝ) < 1) hc, hlog]
    rw [show (12 * (1 / 24 : ℝ)) = 1 / 2 by norm_num, pyRound_half]
  · rw [hlog, show (12 * (1 / 24 : ℝ)) = 1 / 2 by norm_num]
    exact roundHalfAwayFromZero_half

/-- Claim C1 (amended): for every positive finite source and target both
semitone calculators return `round(12 * log2(target / source))` as a
signed integer, where the rounding is to the nearest integer with ties to
the even integer (the Python 3 `round` rule), not ties away from zero. -/
theorem claim1_semitone_shift_formula {s t : ℝ} (hs : 0 < s) (ht : 0 < t) :
    semitone_shift (.fin s) (.fin t) = .ok (pyRound (12 * Real.logb 2 (t / s))) ∧
    hz_to_semitones (.fin s) (.fin t) = .ok (pyRound (12 * Real.logb 2 (t / s))) :=
  ⟨semitone_shift_fin_pos hs ht, hz_to_semitones_fin_pos hs ht⟩

theorem claim1_witness :
    (0 : ℝ) < 1 ∧ (0 : ℝ) < 2 ∧
    semitone_shift (.fin 1) (.fin 2) = .ok 12 ∧
    hz_to_semitones (.fin 1) (.fin 2) = .ok 12 := by
  have h := claim1_semitone_shift_formula
    (by norm_num : (0:ℝ) < 1) (by norm_num : (0:ℝ) < 2)
  refine ⟨by norm_num, by norm_num, ?_, ?_⟩
  · rw [h.1, pyRound_twelve]
  · rw [h.2, pyRound_twelve]

/-- Claim C6 is refuted on non-finite input: `semitone_shift(nan, 170.0)`
passes the guard (`nan` is truthy and `nan <= 0` is false), propagates
`nan` through the division and the logarithm, and then `round(nan)`
raises `ValueError` instead of returning 0. -/
theorem claim6_counterexample :
    semitone_shift .nan (.fin 170) = .error .valueError := by
  have hguard : ¬ (¬ (PyFloat.nan).isTruthy ∨ ¬ (PyFloat.fin 170).isTruthy ∨
      (PyFloat.nan).le0 ∨ (PyFloat.fin 170).le0) := by
    simp only [PyFloat.isTruthy, PyFloat.le0, not_or, not_not, not_le]
    refine ⟨trivial, ?_, not_false, by norm_num⟩
    norm_num
  rw [semitone_shift, if_neg hguard]
  have h1 : PyFloat.pydiv (.fin 170) .nan = .ok .nan := rfl
  have h2 : PyFloat.log2 .nan = .ok .nan := rfl
  simp only [h1, h2, PyFloat.mul12, PyFloat.roundToInt]

/-- Claim C6 (amended): for finite inputs the guards work as claimed —
any non-positive source or target yields 0 without raising, in both
calculators.  Non-finite inputs, however, are not all handled: `nan`
reaches `round()` in `semitone_shift` and raises `ValueError`, and a
`+inf` source makes `math.log2(0.0)` raise in `_hz_to_semitones`. -/
theorem claim6_nonpositive_returns_zero {s t : ℝ} (h : s ≤ 0 ∨ t ≤ 0) :
    semitone_shift (.fin s) (.fin t) = .ok 0 ∧
    hz_to_semitones (.fin s) (.fin t) = .ok 0 := by
  constructor
  · rw [semitone_shift, if_pos]
    rcases h with h | h
    · exact Or.inr (Or.inr (Or.inl h))
    · exact Or.inr (Or.inr (Or.inr h))
  · rw [hz_to_semitones, if_pos]
    exact h

theorem claim6_witness :
    ((-50 : ℝ) ≤ 0 ∨ (170 : ℝ) ≤ 0) ∧
    semitone_shift (.fin (-50)) (.fin 170) = .ok 0 ∧
    hz_to_semitones (.fin (-50)) (.fin 170) = .ok 0 := by
  have h : (-50 : ℝ) ≤ 0 ∨ (170 : ℝ) ≤ 0 := Or.inl (by norm_num)
  exact ⟨h, (claim6_nonpositive_returns_zero h).1,
    (claim6_nonpositive_returns_zero h).2⟩

/-- Claim C7: for a fixed positive finite source, the semitone shift is
non-decreasing in the target frequency. -/
theorem claim7_semitone_shift_monotone {s t1 t2 : ℝ} {a b : ℤ}
    (hs : 0 < s) (ht1 : 0 < t1) (h12 : t1 ≤ t2)
    (ha : semitone_shift (.fin s) (.fin t1) = .ok a)
    (hb : semitone_shift (.fin s) (.fin t2) = .ok b) : a ≤ b := by
  have ht2 : 0 < t2 := lt_of_lt_of_le ht1 h12
  rw [semitone_shift_fin_pos hs ht1] at ha
  rw [semitone_shift_fin_pos hs ht2] at hb
  simp only [Except.ok.injEq] at ha hb
  subst ha hb
  apply pyRound_mono
  have hdiv : t1 / s ≤ t2 / s := by gcongr
  have hlog := Real.logb_le_logb_of_le
    (by norm_num : (1:ℝ) < 2) (div_pos ht1 hs) hdiv
  exact mul_le_mul_of_nonneg_left hlog (by norm_num)

theorem claim7_witness :
    (0 : ℝ) < 1 ∧ (0 : ℝ) < 1 ∧ (1 : ℝ) ≤ 2 ∧
    semitone_shift (.fin 1) (.fin 1) = .ok 0 ∧
    semitone_shift (.fin 1) (.fin 2) = .ok 12 ∧ (0 : ℤ) ≤ 12 := by
  have ha : semitone_shift (.fin 1) (.fin 1) = .ok 0 := by
    rw [semitone_shift_fin_pos (by norm_num : (0:ℝ) < 1) (by norm_num : (0:ℝ) < 1),
      pyRound_ratio_same]
  have hb : semitone_shift (.fin 1) (.fin 2) = .ok 12 := by
    rw [semitone_shift_fin_pos (by norm_num : (0:ℝ) < 1) (by norm_num : (0:ℝ) < 2),
      pyRound_twelve]
  exact ⟨by norm_num, by norm_num, by norm_num, ha, hb,
    claim7_semitone_shift_monotone (by norm_num) (by norm_num) (by norm_num) ha hb⟩

/-- Claim C4 is refuted for the safe-variant resolver `load_target_f0_hz`:
a present finite baseline of 120 Hz is returned unchanged, with no
singing offset applied (and no validity check), so the output differs
from the claimed `120 * 2^(6/12)`. -/
theorem claim4_counterexample :
    load_target_f0_hz (some (some (.fin 120))) = some (.fin 120) ∧
    (PyFloat.fin 120) ≠ .fin (120 * Real.rpow 2 (6 / 12)) := by
  refine ⟨rfl, ?_⟩
  intro h
  have h2 : (120 : ℝ) = 120 * Real.rpow 2 (6 / 12) := by
    injection h
  have h3 : (1 : ℝ) < Real.rpow 2 (6 / 12) := by
    show (1 : ℝ) < (2 : ℝ) ^ ((6 : ℝ) / 12)
    rw [Real.one_lt_rpow_iff_of_pos (by norm_num : (0:ℝ) < 2)]
    left
    constructor <;> norm_num
  nlinarith

/-- Claim C4 (amended): the resolver `_read_target_f0_hz_from_meta` of
`auto_pitch_entry.py` satisfies the claimed contract — absent, non-finite
or non-positive `target_f0_hz` yields absent, and a positive finite
baseline is multiplied by `2^(6/12)`; the safe-variant resolver
`load_target_f0_hz`, by contrast, returns the raw field value with no
offset and no finiteness or sign check. -/
theorem claim4_target_resolver :
    read_target_f0_hz_from_meta none = none ∧
    read_target_f0_hz_from_meta (some none) = none ∧
    (∀ f : PyFloat, f.isFinite = false →
      read_target_f0_hz_from_meta (some (some f)) = none) ∧
    (∀ x : ℝ, x ≤ 0 →
      read_target_f0_hz_from_meta (some (some (.fin x))) = none) ∧
    (∀ x : ℝ, 0 < x →
      read_target_f0_hz_from_meta (some (some (.fin x)))
        = some (.fin (x * Real.rpow 2 (6 / 12)))) ∧
    (∀ f : PyFloat, load_target_f0_hz (some (some f)) = some f) := by
  refine ⟨rfl, rfl, ?_, ?_, ?_, fun _ => rfl⟩
  · intro f hf
    cases f with
    | fin x => simp [PyFloat.isFinite] at hf
    | inf => rfl
    | ninf => rfl
    | nan => rfl
  · intro x hx
    rw [read_target_f0_hz_from_meta, if_pos hx]
  · intro x hx
    rw [read_target_f0_hz_from_meta, if_neg (not_le.mpr hx)]

theorem claim4_witness :
    (0 : ℝ) < 120 ∧
    read_target_f0_hz_from_meta (some (some (.fin 120)))
      = some (.fin (120 * Real.rpow 2 (6 / 12))) ∧
    (-5 : ℝ) ≤ 0 ∧
    read_target_f0_hz_from_meta (some (some (.fin (-5)))) = none ∧
    PyFloat.nan.isFinite = false ∧
    read_target_f0_hz_from_meta (some (some .nan)) = none :=
  ⟨by norm_num,
   claim4_target_resolver.2.2.2.2.1 120 (by norm_num),
   by norm_num,
   claim4_target_resolver.2.2.2.1 (-5) (by norm_num),
   rfl,
   claim4_target_resolver.2.2.1 .nan rfl⟩

/-- Claim C3: whenever the caller supplies an explicit pitch, the
orchestrator outputs exactly that value with provenance
explicit-override, and neither the decoder nor the estimator is invoked
(and no fallback warning is printed) — for every target-metadata state
and every possible decode outcome. -/
theorem claim3_explicit_override (p : ℤ) (target : Option PyFloat)
    (decodeRes : Except PyErr (List ℚ × ℤ)) :
    mainSafe (some p) target decodeRes =
      ⟨p, .explicitOverride, false, false, false⟩ := rfl

/-- Claim C2: in the auto-compute path (no explicit pitch, truthy target)
every decode failure and every absent f0 estimate results in the decision
pitch 0 with provenance fallback-estimation-failed and a logged warning;
the orchestrator returns a normal `Decision` in all these cases, i.e. the
error never propagates out (the source catches it in the `except` clause
of `main`). -/
theorem claim2_estimation_failure_fallback (t : PyFloat) (ht : t.isTruthy) :
    (∀ e : PyErr, mainSafe none (some t) (.error e) =
      ⟨0, .fallbackEstimationFailed, true, false, true⟩) ∧
    (∀ (samples : List ℚ) (sr : ℤ),
      autocorr_pitch_hz samples sr 50 500 = none →
      mainSafe none (some t) (.ok (samples, sr)) =
        ⟨0, .fallbackEstimationFailed, true, true, true⟩) := by
  constructor
  · intro e
    rw [mainSafe, if_neg (not_not_intro ht)]
  · intro samples sr hnone
    rw [mainSafe, if_neg (not_not_intro ht)]
    simp only [hnone]

theorem claim2_witness :
    (PyFloat.fin 170).isTruthy ∧
    mainSafe none (some (.fin 170)) (.error .valueError) =
      ⟨0, .fallbackEstimationFailed, true, false, true⟩ ∧
    autocorr_pitch_hz [] 0 50 500 = none ∧
    mainSafe none (some (.fin 170)) (.ok ([], 0)) =
      ⟨0, .fallbackEstimationFailed, true, true, true⟩ := by
  have ht : (PyFloat.fin 170).isTruthy := by
    intro h
    norm_num at h
  have hauto : autocorr_pitch_hz [] 0 50 500 = none := rfl
  exact ⟨ht, (claim2_estimation_failure_fallback _ ht).1 .valueError, hauto,
    (claim2_estimation_failure_fallback _ ht).2 [] 0 hauto⟩

theorem sorted_le_of_mem_drop {s : List ℚ} (hs : List.Sorted (· ≤ ·) s)
    {k : ℕ} (hk : k < s.length) {v : ℚ} (hv : v ∈ s.drop k) :
    s[k] ≤ v := by
  have hsub : List.Sorted (· ≤ ·) (s.drop k) :=
    List.Pairwise.sublist (List.drop_sublist k s) hs
  rw [List.drop_eq_getElem_cons hk] at hv hsub
  rcases List.mem_cons.mp hv with rfl | hv2
  · exact le_refl _
  · exact List.rel_of_sorted_cons hsub _ hv2

theorem sorted_le_of_mem_take {s : List ℚ} (hs : List.Sorted (· ≤ ·) s)
    {k : ℕ} (hk : k < s.length) {v : ℚ} (hv : v ∈ s.take (k + 1)) :
    v ≤ s[k] := by
  obtain ⟨j, hj, hjv⟩ := List.mem_iff_getElem.mp hv
  rw [List.getElem_take] at hjv
  subst hjv
  have hjk : j ≤ k := by
    rw [List.length_take] at hj
    omega
  have hjlen : j < s.length := lt_of_le_of_lt hjk hk
  have := hs.rel_get_of_le (a := ⟨j, hjlen⟩) (b := ⟨k, hk⟩) (Fin.mk_le_mk.mpr hjk)
  simpa using this

/-- Claim C5 (amended): when at least one per-frame candidate survives,
`autocorr_pitch_hz` returns the element at index `len // 2` of the sorted
candidate list — an order-middle value: a member of the candidate list
with at most half of the candidates strictly below it and at most half
strictly above it.  For an odd candidate count this is exactly the
statistical median; for an even count it is the upper of the two middle
values, not their mean.  When no candidates survive it returns absent. -/
theorem claim5_autocorr_median_selection
    (samples : List ℚ) (sr : ℤ) (fmin fmax : ℚ) :
    (collectPitches samples sr fmin fmax = [] →
      autocorr_pitch_hz samples sr fmin fmax = none) ∧
    (collectPitches samples sr fmin fmax ≠ [] →
      ∃ m, autocorr_pitch_hz samples sr fmin fmax = some m ∧
        m ∈ collectPitches samples sr fmin fmax ∧
        (collectPitches samples sr fmin fmax).countP
            (fun v => decide (v < m))
          ≤ (collectPitches samples sr fmin fmax).length / 2 ∧
        (collectPitches samples sr fmin fmax).countP
            (fun v => decide (m < v))
          ≤ (collectPitches samples sr fmin fmax).length / 2 ∧
        ((collectPitches samples sr fmin fmax).length % 2 = 1 →
          autocorr_pitch_hz samples sr fmin fmax =
            medianSpec (collectPitches samples sr fmin fmax))) := by
  constructor
  · intro h
    rw [autocorr_pitch_hz, if_pos h]
  · intro h
    have hauto : autocorr_pitch_hz samples sr fmin fmax =
        some ((List.insertionSort (· ≤ ·)
            (collectPitches samples sr fmin fmax)).getD
          ((collectPitches samples sr fmin fmax).length / 2) 0) := by
      rw [autocorr_pitch_hz, if_neg h]
    set p := collectPitches samples sr fmin fmax with hp
    set s := List.insertionSort (· ≤ ·) p with hsdef
    have hperm : s.Perm p := List.perm_insertionSort _ p
    have hlen : s.length = p.length := hperm.length_eq
    have hsort : List.Sorted (· ≤ ·) s := List.sorted_insertionSort _ p
    have hplen : 0 < p.length := List.length_pos.mpr h
    have hks : p.length / 2 < s.length := by
      rw [hlen]
      omega
    have hget : s.getD (p.length / 2) 0 = s[p.length / 2] :=
      List.getD_eq_getElem s 0 hks
    obtain ⟨m, hm⟩ : ∃ m, s[p.length / 2] = m := ⟨_, rfl⟩
    refine ⟨m, by rw [hauto, hget, hm], ?_, ?_, ?_, ?_⟩
    · rw [← hm]
      exact hperm.mem_iff.mp (List.getElem_mem hks)
    · rw [← hperm.countP_eq]
      conv_lhs => rw [← List.take_append_drop (p.length / 2) s]
      rw [List.countP_append]
      have hz : (s.drop (p.length / 2)).countP
          (fun v => decide (v < m)) = 0 := by
        rw [List.countP_eq_zero]
        intro v hv
        simpa using not_lt.mpr (hm ▸ sorted_le_of_mem_drop hsort hks hv)
      rw [hz, Nat.add_zero]
      calc (s.take (p.length / 2)).countP (fun v => decide (v < m))
          ≤ (s.take (p.length / 2)).length := List.countP_le_length _
        _ ≤ p.length / 2 := by
            rw [List.length_take]
            omega
    · rw [← hperm.countP_eq]
      conv_lhs => rw [← List.take_append_drop (p.length / 2 + 1) s]
      rw [List.countP_append]
      have hz : (s.take (p.length / 2 + 1)).countP
          (fun v => decide (m < v)) = 0 := by
        rw [List.countP_eq_zero]
        intro v hv
        simpa using not_lt.mpr (hm ▸ sorted_le_of_mem_take hsort hks hv)
      rw [hz, Nat.zero_add]
      calc (s.drop (p.length / 2 + 1)).countP
            (fun v => decide (m < v))
          ≤ (s.drop (p.length / 2 + 1)).length := List.countP_le_length _
        _ ≤ p.length / 2 := by
            rw [List.length_drop, hlen]
            omega
    · intro hodd
      rw [hauto, medianSpec, if_neg h, if_pos hodd]

set_option maxRecDepth 100000 in
/-- Claim C5 is refuted on a concrete 26-sample buffer at 500 Hz: two
frames survive, with candidate frequencies 250 and 500/3; the source
returns the upper middle element 250 of the sorted pair, while the median
of the two candidates is 625/3. -/
theorem claim5_counterexample :
    collectPitches
        [5, -5, 5, -5, 5, 2, -1, -1, 2, -1, -1, 2, -1, -1, 2, -1, -1,
          2, -1, -1, 2, -1, -1, 2, -1, -6] 500 50 500 = [250, 500 / 3] ∧
    autocorr_pitch_hz
        [5, -5, 5, -5, 5, 2, -1, -1, 2, -1, -1, 2, -1, -1, 2, -1, -1,
          2, -1, -1, 2, -1, -1, 2, -1, -6] 500 50 500 = some 250 ∧
    medianSpec [250, 500 / 3] = some (625 / 3) ∧
    (250 : ℚ) ≠ 625 / 3 := by
  refine ⟨by decide!, by decide!, by decide!, by decide!⟩

set_option maxRecDepth 100000 in
theorem claim5_witness :
    collectPitches
        [2, -1, -1, 2, -1, -1, 2, -1, -1, 2, -1, -1, 2, -1, -1,
          2, -1, -1, 2, -1, -1] 500 50 500 ≠ [] ∧
    (∃ m, autocorr_pitch_hz
        [2, -1, -1, 2, -1, -1, 2, -1, -1, 2, -1, -1, 2, -1, -1,
          2, -1, -1, 2, -1, -1] 500 50 500 = some m ∧
      m ∈ collectPitches
        [2, -1, -1, 2, -1, -1, 2, -1, -1, 2, -1, -1, 2, -1, -1,
          2, -1, -1, 2, -1, -1] 500 50 500 ∧
      (collectPitches
        [2, -1, -1, 2, -1, -1, 2, -1, -1, 2, -1, -1, 2, -1, -1,
          2, -1, -1, 2, -1, -1] 500 50 500).countP (fun v => decide (v < m))
        ≤ (collectPitches
        [2, -1, -1, 2, -1, -1, 2, -1, -1, 2, -1, -1, 2, -1, -1,
          2, -1, -1, 2, -1, -1] 500 50 500).length / 2 ∧
      (collectPitches
        [2, -1, -1, 2, -1, -1, 2, -1, -1, 2, -1, -1, 2, -1, -1,
          2, -1, -1, 2, -1, -1] 500 50 500).countP (fun v => decide (m < v))
        ≤ (collectPitches
        [2, -1, -1, 2, -1, -1, 2, -1, -1, 2, -1, -1, 2, -1, -1,
          2, -1, -1, 2, -1, -1] 500 50 500).length / 2 ∧
      ((collectPitches
        [2, -1, -1, 2, -1, -1, 2, -1, -1, 2, -1, -1, 2, -1, -1,
          2, -1, -1, 2, -1, -1] 500 50 500).length % 2 = 1 →
        autocorr_pitch_hz
        [2, -1, -1, 2, -1, -1, 2, -1, -1, 2, -1, -1, 2, -1, -1,
          2, -1, -1, 2, -1, -1] 500 50 500 =
          medianSpec (collectPitches
        [2, -1, -1, 2, -1, -1, 2, -1, -1, 2, -1, -1, 2, -1, -1,
          2, -1, -1, 2, -1, -1] 500 50 500))) :=
  ⟨by decide!,
   (claim5_autocorr_median_selection
     [2, -1, -1, 2, -1, -1, 2, -1, -1, 2, -1, -1, 2, -1, -1,
       2, -1, -1, 2, -1, -1] 500 50 500).2 (by decide!)⟩

/-- Claim C10: on every input on which the estimator cannot form even one
analysis frame — an empty sample list, a sample rate at most 0, a
windowed buffer shorter than one 40 ms frame, or an empty lag search
range (`int(sr/fmin) <= int(sr/fmax) + 1`) — it returns absent.  The
embedding is a total function: none of these paths raises, mirroring the
early `return None` guards of the source. -/
theorem claim10_autocorr_degenerate_none
    (samples : List ℚ) (sr : ℤ) (fmin fmax : ℚ)
    (h : samples = [] ∨ sr ≤ 0 ∨
      ((trimmedWindow samples sr).length : ℤ) < frameLen sr ∨
      pytrunc ((sr : ℚ) / fmin) ≤ pytrunc ((sr : ℚ) / fmax) + 1) :
    autocorr_pitch_hz samples sr fmin fmax = none := by
  have hcol : collectPitches samples sr fmin fmax = [] := by
    simp only [collectPitches]
    split_ifs with h1 h2 h3
    · rfl
    · rfl
    · rfl
    · exfalso
      rcases h with h | h | h | h
      · exact h1 (Or.inl h)
      · exact h1 (Or.inr h)
      · refine h2 (Or.inr (Or.inr ?_))
        simpa [List.length_map] using h
      · exact h3 h
  simp [autocorr_pitch_hz, hcol]

theorem claim10_witness :
    ([(1 : ℚ)] = [] ∨ (500 : ℤ) ≤ 0 ∨
      ((trimmedWindow [(1 : ℚ)] 500).length : ℤ) < frameLen 500 ∨
      pytrunc ((500 : ℚ) / 50) ≤ pytrunc ((500 : ℚ) / 500) + 1) ∧
    autocorr_pitch_hz [(1 : ℚ)] 500 50 500 = none := by
  have h : [(1 : ℚ)] = [] ∨ (500 : ℤ) ≤ 0 ∨
      ((trimmedWindow [(1 : ℚ)] 500).length : ℤ) < frameLen 500 ∨
      pytrunc ((500 : ℚ) / 50) ≤ pytrunc ((500 : ℚ) / 500) + 1 :=
    Or.inr (Or.inr (Or.inl (by decide!)))
  exact ⟨h, claim10_autocorr_degenerate_none [(1 : ℚ)] 500 50 500 h⟩

theorem sint16_enc16 {z : ℤ} (h1 : -32768 ≤ z) (h2 : z < 32768) :
    sint16 (z % 65536 % 256).toNat (z % 65536 / 256).toNat = z := by
  simp only [sint16]
  split_ifs with h <;> omega

theorem unpack16_enc_append (zs : List ℤ) (rest : List ℕ)
    (h : ∀ z ∈ zs, -32768 ≤ z ∧ z < 32768) :
    unpack16 (((zs.map enc16).flatten) ++ rest) =
      (unpack16 rest).map (zs ++ ·) := by
  induction zs with
  | nil =>
    simp only [List.map_nil, List.flatten_nil, List.nil_append]
    cases unpack16 rest <;> simp [Except.map]
  | cons z zs ih =>
    have hz := h z (List.mem_cons_self z zs)
    have hrest : ∀ w ∈ zs, -32768 ≤ w ∧ w < 32768 :=
      fun w hw => h w (List.mem_cons_of_mem z hw)
    simp only [List.map_cons, List.flatten_cons, enc16, List.cons_append,
      List.nil_append, List.append_assoc]
    rw [unpack16, ih hrest]
    rw [sint16_enc16 hz.1 hz.2]
    cases unpack16 rest <;> simp [Except.map]

theorem stride_cons_append {α : Type} (step : ℕ) (a : α) (t rest : List α)
    (ht : t.length = step - 1) :
    stride step ((a :: t) ++ rest) = a :: stride step rest := by
  rw [List.cons_append, stride]
  rw [List.drop_left' ht]

theorem stride_flatten (nch : ℕ) (hn : 1 ≤ nch) (frames : List (List ℤ))
    (hlen : ∀ f ∈ frames, f.length = nch) :
    stride nch frames.flatten = frames.map (fun f => f.headD 0) := by
  induction frames with
  | nil =>
    show stride nch [] = []
    rw [stride]
  | cons f fs ih =>
    have hf : f.length = nch := hlen f (List.mem_cons_self f fs)
    have hfs : ∀ g ∈ fs, g.length = nch :=
      fun g hg => hlen g (List.mem_cons_of_mem f hg)
    cases f with
    | nil =>
      exfalso
      rw [List.length_nil] at hf
      omega
    | cons a t =>
      rw [List.flatten_cons, stride_cons_append nch a t fs.flatten
        (by simpa using hf.symm ▸ rfl), ih hfs]
      rfl

/-- Claim C8: for every well-formed interleaved 16-bit PCM stream with at
least one channel, the decoder returns exactly the channel-0 sample of
each frame, normalised by dividing by 32768.0, paired with the declared
sample rate; channels are never averaged and the output length equals
the frame count. -/
theorem claim8_read_wav_mono16 (nch : ℕ) (fr : ℤ) (frames : List (List ℤ))
    (hn : 1 ≤ nch)
    (hlen : ∀ f ∈ frames, f.length = nch)
    (hrange : ∀ f ∈ frames, ∀ z ∈ f, -32768 ≤ z ∧ z < 32768) :
    read_wav_mono16 nch fr (encFrames16 frames) =
      .ok (frames.map (fun f => ((f.headD 0 : ℤ) : ℚ) / 32768), fr) := by
  have hunpack : ∀ gs : List (List ℤ),
      (∀ f ∈ gs, ∀ z ∈ f, -32768 ≤ z ∧ z < 32768) →
      unpack16 (encFrames16 gs) = .ok gs.flatten := by
    intro gs
    induction gs with
    | nil =>
      intro _
      rfl
    | cons f fs ih =>
      intro hg
      have hf : ∀ z ∈ f, -32768 ≤ z ∧ z < 32768 :=
        hg f (List.mem_cons_self f fs)
      have hfs : ∀ g ∈ fs, ∀ z ∈ g, -32768 ≤ z ∧ z < 32768 :=
        fun g hgm => hg g (List.mem_cons_of_mem f hgm)
      have hstep : encFrames16 (f :: fs) =
          ((f.map enc16).flatten) ++ encFrames16 fs := by
        rw [encFrames16, encFrames16, List.map_cons, List.flatten_cons]
      rw [hstep, unpack16_enc_append f (encFrames16 fs) hf, ih hfs]
      rfl
  rw [read_wav_mono16, if_neg (by omega)]
  simp only [hunpack frames hrange]
  rw [stride_flatten nch hn frames hlen, List.map_map]
  rfl

theorem claim8_witness :
    1 ≤ 2 ∧
    (∀ f ∈ [[(1000 : ℤ), -3], [-32768, 5]], f.length = 2) ∧
    (∀ f ∈ [[(1000 : ℤ), -3], [-32768, 5]], ∀ z ∈ f,
      -32768 ≤ z ∧ z < 32768) ∧
    read_wav_mono16 2 44100 (encFrames16 [[(1000 : ℤ), -3], [-32768, 5]]) =
      .ok ([1000 / 32768, -32768 / 32768], 44100) := by
  have h2 : ∀ f ∈ [[(1000 : ℤ), -3], [-32768, 5]], f.length = 2 := by decide
  have h3 : ∀ f ∈ [[(1000 : ℤ), -3], [-32768, 5]], ∀ z ∈ f,
      -32768 ≤ z ∧ z < 32768 := by decide
  refine ⟨by omega, h2, h3, ?_⟩
  rw [claim8_read_wav_mono16 2 44100 [[(1000 : ℤ), -3], [-32768, 5]]
    (by omega) h2 h3]
  rfl

theorem unpack32f_ok_of_aligned :
    ∀ (n : ℕ) (raw : List ℕ), raw.length = 4 * n →
      ∃ d, unpack32f raw = .ok d := by
  intro n
  induction n with
  | zero =>
    intro raw hlen
    rw [Nat.mul_zero] at hlen
    rw [List.length_eq_zero.mp hlen]
    exact ⟨[], rfl⟩
  | succ k ih =>
    intro raw hlen
    match raw with
    | [] => simp at hlen
    | [_] => simp at hlen; omega
    | [_, _] => simp at hlen; omega
    | [_, _, _] => simp at hlen; omega
    | b0 :: b1 :: b2 :: b3 :: rest =>
      have hrest : rest.length = 4 * k := by
        simp at hlen
        omega
      obtain ⟨d, hd⟩ := ih rest hrest
      refine ⟨decodeF32 b0 b1 b2 b3 :: d, ?_⟩
      rw [unpack32f, hd]

/-- Claim C9 concerns the int32 fallback of the 4-byte decoder branch.
The source falls back to int32 only when `struct.unpack("<f", ...)`
raises, but that call accepts every 4-byte pattern, so the fallback is
unreachable on well-formed input: the int32 PCM sample `0x40000000`
(bytes `00 00 00 40`) is decoded as the float `2.0` instead of the int32
normalisation `2^30 / 2^31 = 1/2`. -/
theorem claim9_int32_branch_unreachable :
    read_wav_mono32 1 8000 [0, 0, 0, 64] = .ok ([.num 2], 8000) ∧
    ((2 ^ 30 : ℚ) / 2147483648 = 1 / 2) ∧
    F32.num 2 ≠ F32.num (1 / 2) := by
  refine ⟨by decide!, by decide!, by decide!⟩

end RvcPitch
